import Mathlib

/-!
# Verification of the CellCountApp processing pipeline

Shallow embedding of the repository's worker (`worker.py`, class
`ProcessingThread`) and of the metric/UI glue in `UI.py` (class
`CellposeApp`), together with theorems settling the specified properties.

Conventions:
* a label mask is flattened to a `List ℕ` (the 2-D layout is irrelevant to
  every property below);
* image pixel values are rationals `ℚ` (exact stand-in for numpy floats);
* the external pieces (Cellpose model, PyQt, numpy primitives) appear only
  through their results: `np.unique` is modelled by sort-plus-dedup,
  `float()` parsing by an oracle parameter, the boundary map by a `List Bool`.
-/

namespace CellCount

/-! ## Metrics extractor (`ProcessingThread.run`, worker.py lines 67-79)

`np.unique(mask, return_counts=True)` returns the sorted distinct values of
the mask together with each value's number of occurrences. -/

/-- Sorted list of the distinct values of `mask` — the `labels` array of
`np.unique(mask)`. -/
def npUnique (mask : List ℕ) : List ℕ :=
  List.insertionSort (· ≤ ·) mask.dedup

/-- The `counts` array of `np.unique(mask, return_counts=True)`: for each
distinct value (in the same order), its number of occurrences in `mask`. -/
def npUniqueCounts (mask : List ℕ) : List ℕ :=
  (npUnique mask).map (fun l => mask.count l)

/-- worker.py lines 69-79: drop the leading background label 0 when present
(`if labels.size > 0 and labels[0] == 0`), then `cell_count = len(labels)`
and `mean_area_px = float(counts.mean())` guarded by
`cell_count > 0 and counts.size > 0`, else `0.0`. Returns
`(cell_count, mean_area_px)`. -/
def extract_metrics (mask : List ℕ) : ℕ × ℚ :=
  let labels0 := npUnique mask
  let counts0 := npUniqueCounts mask
  let labels := if labels0.head? = some 0 then labels0.tail else labels0
  let counts := if labels0.head? = some 0 then counts0.tail else counts0
  let cell_count := labels.length
  let mean_area_px : ℚ :=
    if 0 < cell_count ∧ 0 < counts.length then
      (counts.sum : ℚ) / (counts.length : ℚ)
    else 0
  (cell_count, mean_area_px)

/-- Field `cell_count` as reported by the worker. -/
def cellCount (mask : List ℕ) : ℕ := (extract_metrics mask).1

/-- Field `mean_area_px` as reported by the worker. -/
def meanAreaPx (mask : List ℕ) : ℚ := (extract_metrics mask).2

/-! Basic facts about `npUnique`. -/

theorem npUnique_nodup (mask : List ℕ) : (npUnique mask).Nodup :=
  ((List.perm_insertionSort (· ≤ ·) mask.dedup).nodup_iff).mpr mask.nodup_dedup

theorem mem_npUnique {mask : List ℕ} {a : ℕ} :
    a ∈ npUnique mask ↔ a ∈ mask := by
  unfold npUnique
  rw [(List.perm_insertionSort (· ≤ ·) mask.dedup).mem_iff, List.mem_dedup]

theorem npUnique_sorted (mask : List ℕ) :
    (npUnique mask).Sorted (· ≤ ·) :=
  List.sorted_insertionSort (· ≤ ·) mask.dedup

/-- The labels that survive the background drop are exactly the nonzero
entries of `npUnique mask`: since the list is sorted and has no duplicates,
`0` can only sit at the head. -/
theorem labels_after_drop (mask : List ℕ) :
    (if (npUnique mask).head? = some 0 then (npUnique mask).tail
     else npUnique mask) = (npUnique mask).filter (· ≠ 0) := by
  have hnd := npUnique_nodup mask
  have hs := npUnique_sorted mask
  rcases h : npUnique mask with _ | ⟨x, t⟩
  · simp
  · rw [h] at hnd hs
    by_cases hx : x = 0
    · subst hx
      have ht : ∀ y ∈ t, ¬ (y = 0) := by
        intro y hy hy0
        exact (List.nodup_cons.mp hnd).1 (hy0 ▸ hy)
      simp only [List.head?_cons, if_pos rfl, List.tail_cons]
      rw [List.filter_cons_of_neg (by simp)]
      exact (List.filter_eq_self.mpr (by
        intro y hy; simpa using ht y hy)).symm
    · have ht : ∀ y ∈ x :: t, ¬ (y = 0) := by
        intro y hy hy0
        rcases List.mem_cons.mp hy with rfl | hyt
        · exact hx hy0
        · exact hx (Nat.le_zero.mp (hy0 ▸ (List.rel_of_sorted_cons hs y hyt)))
      rw [if_neg (by simp [hx])]
      exact (List.filter_eq_self.mpr (by
        intro y hy; simpa using ht y hy)).symm

theorem filtered_labels_toFinset (mask : List ℕ) :
    ((npUnique mask).filter (· ≠ 0)).toFinset = mask.toFinset.erase 0 := by
  ext a
  simp only [List.mem_toFinset, List.mem_filter, Finset.mem_erase,
    mem_npUnique, decide_eq_true_eq]
  tauto

theorem filtered_labels_length (mask : List ℕ) :
    ((npUnique mask).filter (· ≠ 0)).length = (mask.toFinset.erase 0).card := by
  rw [← filtered_labels_toFinset,
    List.toFinset_card_of_nodup ((npUnique_nodup mask).filter _)]

/-- Claim C1: For every label mask, the reported cell count equals the number
of distinct non-zero label values in the mask — independent of the labels'
numeric magnitude or contiguity (it is the cardinality of the set of
distinct positive labels, not the maximum label value). -/
theorem cellCount_eq_card_distinct_nonzero (mask : List ℕ) :
    cellCount mask = (mask.toFinset.erase 0).card := by
  unfold cellCount extract_metrics
  simp only [labels_after_drop mask]
  exact filtered_labels_length mask

/-- The surviving counts are the per-label occurrence counts of the
surviving labels (dropping the head of both arrays in lockstep). -/
theorem counts_after_drop (mask : List ℕ) :
    (if (npUnique mask).head? = some 0 then (npUniqueCounts mask).tail
     else npUniqueCounts mask) =
      ((npUnique mask).filter (· ≠ 0)).map (fun l => mask.count l) := by
  unfold npUniqueCounts
  rw [← List.map_tail, ← apply_ite (List.map fun l => mask.count l),
    labels_after_drop mask]

/-- Claim C2: For every label mask, the reported mean cell area in pixels
equals the arithmetic mean of the per-label pixel counts over the distinct
non-zero labels, and equals `0` when the cell count is `0` (the guard in
the code prevents any division by zero). -/
theorem meanAreaPx_eq_mean_of_label_counts (mask : List ℕ) :
    meanAreaPx mask =
      if (mask.toFinset.erase 0).card = 0 then 0
      else (∑ l ∈ mask.toFinset.erase 0, (mask.count l : ℚ)) /
        ((mask.toFinset.erase 0).card : ℚ) := by
  unfold meanAreaPx extract_metrics
  simp only [labels_after_drop mask, counts_after_drop mask]
  have hnd : ((npUnique mask).filter (· ≠ 0)).Nodup :=
    (npUnique_nodup mask).filter _
  have hlen : (((npUnique mask).filter (· ≠ 0)).map
      (fun l => mask.count l)).length = (mask.toFinset.erase 0).card := by
    rw [List.length_map]; exact filtered_labels_length mask
  have hsum : (((npUnique mask).filter (· ≠ 0)).map
      (fun l => mask.count l)).sum =
      ∑ l ∈ mask.toFinset.erase 0, mask.count l := by
    rw [← filtered_labels_toFinset mask]
    exact (List.sum_toFinset _ hnd).symm
  rcases Nat.eq_zero_or_pos (mask.toFinset.erase 0).card with hc | hc
  · have h1 : ¬ (0 < ((npUnique mask).filter (· ≠ 0)).length ∧
        0 < (((npUnique mask).filter (· ≠ 0)).map
          (fun l => mask.count l)).length) := by
      rw [filtered_labels_length mask, hc]
      simp
    rw [if_neg h1, if_pos hc]
  · have h1 : 0 < ((npUnique mask).filter (· ≠ 0)).length ∧
        0 < (((npUnique mask).filter (· ≠ 0)).map
          (fun l => mask.count l)).length := by
      refine ⟨?_, ?_⟩
      · rw [filtered_labels_length mask]; exact hc
      · rw [hlen]; exact hc
    rw [if_pos h1, if_neg (Nat.pos_iff_ne_zero.mp hc), hlen, hsum]
    push_cast
    rfl

/-! ## Overlay renderer (`_to_uint8` and `_make_overlay`, worker.py 111-146)

Pixel values are rationals. A numpy dtype is reduced to the only distinction
the code makes: `uint8` versus everything else. -/

/-- The dtype distinction tested by `a.dtype == np.uint8`. -/
inductive DType : Type
  | uint8 : DType
  | other : DType
deriving DecidableEq

/-- Model of `np.min` over the (nonempty) flattened array; the `headD 0` seed is an
arbitrary element for the fold and never matters on nonempty input. -/
def listMin (l : List ℚ) : ℚ := l.foldr min (l.headD 0)

/-- Model of `np.max` over the (nonempty) flattened array. -/
def listMax (l : List ℚ) : ℚ := l.foldr max (l.headD 0)

/-- Model of `np.clip(x, 0, 1)`. -/
def clip01 (x : ℚ) : ℚ := min (max x 0) 1

/-- Truncation toward zero, the effect of `.astype(np.uint8)` on the scaled
values (which lie in `[0, 255]`, so no wraparound occurs). -/
def truncInt (q : ℚ) : ℤ := q.num.tdiv (q.den : ℤ)

/-- One pixel of `((scaled * 255.0).astype(np.uint8))` for
`scaled = np.clip((a - amin) / (amax - amin), 0, 1)`. -/
def scaleToU8 (amin amax v : ℚ) : ℚ :=
  (truncInt (clip01 ((v - amin) / (amax - amin)) * 255) : ℚ)

/-- Model of `ProcessingThread._to_uint8` on a flattened single-channel array:
uint8 input is returned unchanged; otherwise the observed `[min, max]`
range is rescaled to `[0, 255]`, with an all-zero result when
`amax <= amin`. -/
def to_uint8 (d : DType) (a : List ℚ) : List ℚ :=
  match d with
  | .uint8 => a
  | .other =>
    let amin := listMin a
    let amax := listMax a
    if amax ≤ amin then a.map (fun _ => 0)
    else a.map (fun v => scaleToU8 amin amax v)

/-- Model of `ProcessingThread._to_uint8` on a multi-channel array (a list of pixels,
each a list of channel values): min and max are taken over the whole array. -/
def to_uint8_rgb (d : DType) (a : List (List ℚ)) : List (List ℚ) :=
  match d with
  | .uint8 => a
  | .other =>
    let flat := a.flatten
    let amin := listMin flat
    let amax := listMax flat
    if amax ≤ amin then a.map (fun px => px.map (fun _ => 0))
    else a.map (fun px => px.map (fun v => scaleToU8 amin amax v))

/-- A source image: grayscale (`img.ndim == 2`) or multi-channel, flattened
spatially to a pixel list. -/
inductive Img : Type
  | gray (pix : List ℚ) : Img
  | color (pix : List (List ℚ)) : Img
deriving DecidableEq

/-- The normalized RGB base of `_make_overlay` (worker.py 123-130): a
grayscale image is normalized then replicated across three channels
(`np.stack([arr, arr, arr], axis=-1)`); a multi-channel image is normalized
and its fourth (alpha) channel dropped when present
(`if rgb.shape[-1] == 4: rgb = rgb[..., :3]`). -/
def overlayBase (d : DType) (img : Img) : List (List ℚ) :=
  match img with
  | .gray pix =>
    let arr := to_uint8 d pix
    arr.map (fun v => [v, v, v])
  | .color pix =>
    let rgb := to_uint8_rgb d pix
    if (rgb.headD []).length = 4 then rgb.map (fun px => px.take 3) else rgb

/-- Masked assignment `overlay[outlines_bool] = y` over the copy of the
base array: positions where the mask is true receive `y`, all others keep
their value. -/
def maskedAssign (y : α) : List α → List Bool → List α
  | [], _ => []
  | x :: xs, [] => x :: xs
  | x :: xs, b :: bs => (if b then y else x) :: maskedAssign y xs bs

/-- Model of `ProcessingThread._make_overlay`: normalized RGB base, copied, with the
fixed highlight color written at every boundary pixel. The second component
is the input image after the call: the masked store hits only the copy
(`overlay = rgb.copy()`), so the input is returned unchanged. -/
def make_overlay (d : DType) (img : Img) (outlines : List Bool) :
    List (List ℚ) × Img :=
  (maskedAssign [255, 0, 0] (overlayBase d img) outlines, img)

theorem maskedAssign_getD (y : α) (dflt : α) (xs : List α) (bs : List Bool)
    (i : ℕ) (hx : i < xs.length) :
    (maskedAssign y xs bs).getD i dflt =
      if bs.getD i false then y else xs.getD i dflt := by
  induction xs generalizing bs i with
  | nil => simp at hx
  | cons x xs ih =>
    cases bs with
    | nil => simp [maskedAssign]
    | cons b bs =>
      cases i with
      | zero => simp [maskedAssign]
      | succ n =>
        simp only [maskedAssign, List.getD_cons_succ]
        exact ih bs n (by simpa using hx)

theorem foldr_min_const {c : ℚ} : ∀ {l : List ℚ},
    (∀ v ∈ l, v = c) → l.foldr min c = c
  | [], _ => rfl
  | v :: t, h => by
    have hv : v = c := h v (List.mem_cons_self v t)
    have ht : t.foldr min c = c :=
      foldr_min_const (fun w hw => h w (List.mem_cons_of_mem v hw))
    simp [hv, ht]

theorem foldr_max_const {c : ℚ} : ∀ {l : List ℚ},
    (∀ v ∈ l, v = c) → l.foldr max c = c
  | [], _ => rfl
  | v :: t, h => by
    have hv : v = c := h v (List.mem_cons_self v t)
    have ht : t.foldr max c = c :=
      foldr_max_const (fun w hw => h w (List.mem_cons_of_mem v hw))
    simp [hv, ht]

/-- On a constant-valued list the observed max does not exceed the observed
min, which is exactly the guard `amax <= amin` of `_to_uint8`. -/
theorem flat_max_le_min {c : ℚ} {pix : List ℚ}
    (h : ∀ v ∈ pix, v = c) : listMax pix ≤ listMin pix := by
  cases pix with
  | nil => simp [listMin, listMax]
  | cons x t =>
    have hx : x = c := h x (List.mem_cons_self x t)
    unfold listMin listMax
    rw [List.headD_cons, hx, foldr_min_const (hx ▸ h), foldr_max_const (hx ▸ h)]

/-- Claim C9: A source image whose element type is already 8-bit unsigned is
returned by the normalization step unchanged — the rescale of the observed
`[min, max]` range to `[0, 255]` is skipped entirely; an image of another
dtype is rescaled (e.g. values `[0, 7]` become `[0, 255]`). -/
theorem to_uint8_uint8_identity (a : List ℚ) :
    to_uint8 .uint8 a = a ∧ to_uint8 .other [0, 7] = [0, 255] := by
  refine ⟨rfl, ?_⟩
  have hmin : listMin [(0 : ℚ), 7] = 0 := by norm_num [listMin]
  have hmax : listMax [(0 : ℚ), 7] = 7 := by norm_num [listMax]
  simp only [to_uint8, hmin, hmax]
  rw [if_neg (by norm_num)]
  norm_num [scaleToU8, clip01, truncInt]

/-- Claim C5 counterexample: The claim says every flat (min = max) source
image is normalized to an all-zero base. A constant uint8 image of value 7
is flat, yet normalization returns it unchanged (value 7, not 0), because
`_to_uint8` returns uint8 input before the flat-image branch is reached:
the overlay base pixel off the boundary is `[7, 7, 7]`, not `[0, 0, 0]`. -/
theorem flat_uint8_base_not_zero :
    listMin [(7 : ℚ), 7] = listMax [(7 : ℚ), 7] ∧
    to_uint8 .uint8 [(7 : ℚ), 7] ≠ [0, 0] ∧
    (make_overlay .uint8 (.gray [7, 7]) [true, false]).1 =
      [[255, 0, 0], [7, 7, 7]] := by
  refine ⟨rfl, ?_, rfl⟩
  intro h
  have := congrArg (fun l => l.headD 0) h
  simp [to_uint8] at this

/-- Claim C5 amended: For every flat (constant-valued) source image whose
dtype is *not* uint8, the normalization step outputs an all-zero base
image, and overlay rendering still paints the highlight color at every
boundary location (uint8 flat images are instead passed through
unchanged). -/
theorem flat_other_dtype_zeroed (c : ℚ) (pix : List ℚ) (outl : List Bool)
    (hc : ∀ v ∈ pix, v = c) :
    to_uint8 .other pix = pix.map (fun _ => 0) ∧
    ∀ i : ℕ, i < pix.length →
      ((make_overlay .other (.gray pix) outl).1).getD i [] =
        (if outl.getD i false then [255, 0, 0] else [0, 0, 0]) := by
  have hz : to_uint8 .other pix = pix.map (fun _ => 0) := by
    show (if listMax pix ≤ listMin pix then _ else _) = _
    rw [if_pos (flat_max_le_min hc)]
  refine ⟨hz, ?_⟩
  intro i hi
  have hbase : overlayBase .other (.gray pix) =
      pix.map (fun _ => [(0 : ℚ), 0, 0]) := by
    show (to_uint8 .other pix).map _ = _
    rw [hz, List.map_map]
    rfl
  have hlen : i < (overlayBase .other (.gray pix)).length := by
    rw [hbase, List.length_map]; exact hi
  rw [show ((make_overlay .other (.gray pix) outl).1) =
        maskedAssign [255, 0, 0] (overlayBase .other (.gray pix)) outl from rfl,
    maskedAssign_getD _ _ _ _ i hlen, hbase]
  rcases h : outl.getD i false with _ | _
  · simp only [if_neg Bool.false_ne_true]
    rw [List.getD_eq_getElem _ _ (by simpa using hi), List.getElem_map]
  · simp

/-- Claim C5 amended, witness: Concrete flat non-uint8 image `[5, 5]`:
normalization yields `[0, 0]` and the boundary pixel is painted red. -/
theorem flat_other_dtype_zeroed_witness :
    to_uint8 .other [(5 : ℚ), 5] = [0, 0] ∧
    ((make_overlay .other (.gray [(5 : ℚ), 5]) [true, false]).1).getD 0 []
      = [255, 0, 0] := by
  have h := flat_other_dtype_zeroed 5 [(5 : ℚ), 5] [true, false]
    (by intro v hv; simp at hv; exact hv)
  refine ⟨by simpa using h.1, ?_⟩
  have h2 := h.2 0 (by norm_num)
  simpa using h2

/-- Claim C6: Overlay rendering returns an image in which every boundary
pixel equals the fixed highlight color `(255, 0, 0)` and every other pixel
equals the normalized base value; the input image comes back unchanged
(the masked store writes only to the copy of the base), and re-invocation
on the same inputs yields the same output. -/
theorem make_overlay_paints_boundary (d : DType) (img : Img)
    (outl : List Bool) (i : ℕ) (hi : i < (overlayBase d img).length) :
    ((make_overlay d img outl).1).getD i [] =
      (if outl.getD i false then [255, 0, 0]
       else (overlayBase d img).getD i []) ∧
    (make_overlay d img outl).2 = img :=
  ⟨maskedAssign_getD _ _ _ _ i hi, rfl⟩

/-- Claim C6 witness: Concrete uint8 grayscale image `[7, 9]` with boundary
map `[true, false]`: pixel 0 is painted red, pixel 1 keeps its normalized
base value `[9, 9, 9]`, and the input image is unchanged. -/
theorem make_overlay_paints_boundary_witness :
    ((make_overlay .uint8 (.gray [(7 : ℚ), 9]) [true, false]).1).getD 0 []
        = [255, 0, 0] ∧
    ((make_overlay .uint8 (.gray [(7 : ℚ), 9]) [true, false]).1).getD 1 []
        = [9, 9, 9] ∧
    (make_overlay .uint8 (.gray [(7 : ℚ), 9]) [true, false]).2
        = .gray [(7 : ℚ), 9] := by
  have h0 := make_overlay_paints_boundary .uint8 (.gray [(7 : ℚ), 9])
    [true, false] 0 (by norm_num [overlayBase, to_uint8])
  have h1 := make_overlay_paints_boundary .uint8 (.gray [(7 : ℚ), 9])
    [true, false] 1 (by norm_num [overlayBase, to_uint8])
  refine ⟨by simpa using h0.1, ?_, h0.2⟩
  have := h1.1
  simpa [overlayBase, to_uint8] using this

/-! ## Background job control flow (`ProcessingThread.run`, worker.py 32-105)

The body of `run` is embedded as the sequence of observable events it
performs, parameterized by the environment facts that decide its branches:
whether the image path exists when `run` starts, whether `io.imread`
succeeds, and the value of the cooperative flag `_is_running` at the single
point where the code reads it. -/

/-- Observable steps of `ProcessingThread.run`. -/
inductive RunEvent : Type
  | checkImagePath : RunEvent
  | makeOutputDir : RunEvent
  | readImage : RunEvent
  | invokeModel : RunEvent
  | checkCancelFlag : RunEvent
  | computeMetrics : RunEvent
  | saveMask : RunEvent
  | buildOutlines : RunEvent
  | buildOverlay : RunEvent
  | saveOverlay : RunEvent
  | emitFinished : RunEvent
  | emitError : RunEvent
deriving DecidableEq

/-- Event trace of `run`: the path check raises into the `except` handler
(which emits the asynchronous `error` signal) when the file is missing;
`io.imread` returning `None` raises likewise; after `cp_model.eval`
returns, `_is_running` is read once — if it is false the method returns
silently, otherwise metrics, mask save, outlines, overlay and the
`finished` signal follow. -/
def runTrace (imageExists imreadOk flagAfterEval : Bool) : List RunEvent :=
  if !imageExists then [.checkImagePath, .emitError]
  else
    [.checkImagePath, .makeOutputDir, .readImage] ++
      (if !imreadOk then [.emitError]
       else
        [.invokeModel, .checkCancelFlag] ++
          (if !flagAfterEval then []
           else [.computeMetrics, .saveMask, .buildOutlines, .buildOverlay,
                 .saveOverlay, .emitFinished]))

/-- Claim C3 counterexample: The claim says the cancellation flag is checked
at exactly two checkpoints, one of them before the model call. In the code
`_is_running` is read exactly once per run — and no read occurs before
`cp_model.eval` is invoked: on a full successful run the trace contains a
single `checkCancelFlag`, and the part of the trace preceding the model
call contains none. -/
theorem runTrace_single_flag_check :
    ((runTrace true true true).count .checkCancelFlag = 1) ∧
    (((runTrace true true true).takeWhile
        (fun e => e ≠ RunEvent.invokeModel)).count .checkCancelFlag = 0) := by
  constructor <;> rfl

/-- Claim C3 amended: During a running job the cooperative cancellation flag
is checked at exactly one checkpoint — after the segmentation model call
returns and before any derived file is written; when cancellation has been
observed there, the job stops without computing metrics, without writing
any file and without emitting a result. -/
theorem runTrace_cancel_checkpoint (flagAfterEval : Bool) :
    ((runTrace true true flagAfterEval).count .checkCancelFlag = 1) ∧
    (((runTrace true true flagAfterEval).takeWhile
        (fun e => e ≠ RunEvent.checkCancelFlag)).count .invokeModel = 1) ∧
    (((runTrace true true flagAfterEval).takeWhile
        (fun e => e ≠ RunEvent.checkCancelFlag)).count .saveMask = 0) ∧
    (flagAfterEval = false →
      (runTrace true true false).count .emitFinished = 0 ∧
      (runTrace true true false).count .saveMask = 0 ∧
      (runTrace true true false).count .saveOverlay = 0) := by
  cases flagAfterEval <;> exact ⟨rfl, rfl, rfl, fun _ => ⟨rfl, rfl, rfl⟩⟩

/-- Claim C3 amended, witness: The amended checkpoint property evaluated on
the cancelled run. -/
theorem runTrace_cancel_checkpoint_witness :
    (runTrace true true false).count .checkCancelFlag = 1 ∧
    (runTrace true true false).count .emitFinished = 0 :=
  ⟨(runTrace_cancel_checkpoint false).1,
   ((runTrace_cancel_checkpoint false).2.2.2 rfl).1⟩

/-- Claim C4 counterexample: The claim says a missing image path is never
delivered through the asynchronous failure notification. But
`ProcessingThread.run` itself re-checks the path (worker.py line 35) and a
failure there is caught by the `except` handler, which emits the
asynchronous `error` signal: a run starting with a missing image produces
exactly the trace `[checkImagePath, emitError]`. -/
theorem missing_path_emits_async_error :
    runTrace false true true = [.checkImagePath, .emitError] ∧
    (runTrace false true true).count .emitError = 1 := ⟨rfl, rfl⟩

/-! ## Presentation shell (`CellposeApp`, UI.py)

Session state and the handlers `start_analysis` / `cancel_analysis`,
embedded as a deterministic transition system. A live worker is a thread
whose `run` has not yet returned, carried with the current value of its
cooperative `_is_running` flag; the head of the list is the thread held in
`self.processing_thread`. -/

/-- Synchronous outcomes of `start_analysis` (the `QMessageBox` branches in
UI.py lines 175-189). -/
inductive Warn : Type
  | alreadyRunning : Warn
  | noImage : Warn
  | fileNotFound : Warn
  | noOutputFolder : Warn
deriving DecidableEq

/-- UI session state: `is_processing`, `current_image`, validity of the
chosen output folder, the flags of the still-running worker threads
(head = `self.processing_thread`), and the synchronous warnings shown so
far (most recent first). -/
structure Sess : Type where
  isProcessing : Bool
  currentImage : Option String
  outputFolderOk : Bool
  liveWorkers : List Bool
  warnings : List Warn
deriving DecidableEq

/-- External stimuli. `startReq imageStillExists`: the Start button, with
the given truth of `os.path.exists(current_image)` at that moment.
`cancelReq finishesInWait`: the Cancel button; the argument tells whether
the worker terminates within the 1-second `wait(1000)` grace period.
`currentFinishes`: the current worker's `run` returns (emitting `finished`
if its flag is still set, silently otherwise). -/
inductive UIEvent : Type
  | startReq (imageStillExists : Bool) : UIEvent
  | cancelReq (finishesInWait : Bool) : UIEvent
  | currentFinishes : UIEvent
deriving DecidableEq

/-- One step of the session, translated from `start_analysis`,
`cancel_analysis`, `on_processing_finished` and `ProcessingThread.stop`. -/
def stepSess (s : Sess) : UIEvent → Sess
  | .startReq imageStillExists =>
    if s.isProcessing then { s with warnings := .alreadyRunning :: s.warnings }
    else
      match s.currentImage with
      | none => { s with warnings := .noImage :: s.warnings }
      | some name =>
        if name = "" then { s with warnings := .noImage :: s.warnings }
        else if !imageStillExists then
          { s with warnings := .fileNotFound :: s.warnings }
        else if !s.outputFolderOk then
          { s with warnings := .noOutputFolder :: s.warnings }
        else { s with isProcessing := true,
                      liveWorkers := true :: s.liveWorkers }
  | .cancelReq finishesInWait =>
    match s.liveWorkers with
    | [] => { s with isProcessing := false }
    | _ :: rest =>
      { s with isProcessing := false,
               liveWorkers := if finishesInWait then rest else false :: rest }
  | .currentFinishes =>
    match s.liveWorkers with
    | [] => s
    | w :: rest =>
      if w then { s with isProcessing := false, liveWorkers := rest }
      else { s with liveWorkers := rest }

/-- Fold a list of events over the session. -/
def runSess (s : Sess) (evs : List UIEvent) : Sess :=
  evs.foldl stepSess s

/-- The initial session of a freshly opened window with an image and an
output folder selected. -/
def readySess : Sess :=
  { isProcessing := false, currentImage := some "cells.png",
    outputFolderOk := true, liveWorkers := [], warnings := [] }

/-- Claim C8 counterexample: The claim says at most one job is ever in the
`Running` state. But `cancel_analysis` clears `is_processing` after a
1-second `wait` even when the worker has not terminated (the cooperative
flag cannot interrupt a model call in progress), so a start after such a
cancel launches a second thread while the first is still running: after
`[start, cancel (worker still busy), start]` two worker threads are live
and no "already running" warning was ever raised. -/
theorem two_workers_live :
    (runSess readySess
      [.startReq true, .cancelReq false, .startReq true]).liveWorkers.length
      = 2 ∧
    (runSess readySess
      [.startReq true, .cancelReq false, .startReq true]).warnings = [] := by
  constructor <;> rfl

/-- Claim C8 amended: While `is_processing` is true, a start request is
rejected with the distinct "already running" warning and changes nothing
else: no worker is created or queued and the active worker (hence its
eventual result) is untouched. The guard protects only `is_processing`:
after a cancel that the worker did not honor within the 1-second wait, a
new start is accepted while the old thread still runs. -/
theorem start_while_processing_rejected (s : Sess) (b : Bool)
    (h : s.isProcessing = true) :
    stepSess s (.startReq b) = { s with warnings := .alreadyRunning :: s.warnings } := by
  unfold stepSess
  rw [h]
  rfl

/-- Claim C8 amended, witness: In the session reached right after a start,
a second start request is rejected and alters nothing but the warning
list. -/
theorem start_while_processing_rejected_witness :
    stepSess (runSess readySess [.startReq true]) (.startReq true) =
      { runSess readySess [.startReq true] with
        warnings := .alreadyRunning ::
          (runSess readySess [.startReq true]).warnings } :=
  start_while_processing_rejected (runSess readySess [.startReq true]) true rfl

/-- Claim C4 amended: A missing image path produces a synchronous warning in
`start_analysis` before any worker is created — the session is unchanged
except for the warning; but the worker re-validates the path inside `run`,
and a path found missing there is surfaced through the asynchronous
failure notification (`error` signal), not synchronously. -/
theorem missing_path_sync_then_async (s : Sess) (name : String)
    (imreadOk flag : Bool) (h1 : s.isProcessing = false)
    (h2 : s.currentImage = some name) (h3 : name ≠ "") :
    stepSess s (.startReq false) =
      { s with warnings := .fileNotFound :: s.warnings } ∧
    runTrace false imreadOk flag = [.checkImagePath, .emitError] := by
  refine ⟨?_, rfl⟩
  unfold stepSess
  rw [h1, h2]
  simp [h3]

/-- Claim C4 amended, witness: Concrete session: the synchronous
`fileNotFound` warning is raised and no worker starts; the in-run recheck
emits the asynchronous error. -/
theorem missing_path_sync_then_async_witness :
    stepSess readySess (.startReq false) =
      { readySess with warnings := [.fileNotFound] } ∧
    runTrace false true true = [.checkImagePath, .emitError] :=
  missing_path_sync_then_async readySess "cells.png" true true rfl rfl
    (by decide)

/-! ## Physical-area conversion (`on_processing_finished`, UI.py 237-246)

`pixelSizeText` is the already-stripped text of the pixel-size field (the
code's local `pixel_size_text` after `.strip()`); `parsed` is the outcome
of the external call `float(pixel_size_text)` — `none` when it raises
`ValueError` (handled by the `except` branch), `some s` when it parses. -/

/-- UI.py 239-246: `mean_area_um2` stays `None` for empty input, a parse
failure, or a non-positive value; a positive scale `s` yields
`mean_area_px * s ** 2`. The function is total: no branch raises to the
caller. -/
def meanAreaUm2 (pixelSizeText : String) (parsed : Option ℚ)
    (meanAreaPx : ℚ) : Option ℚ :=
  if pixelSizeText = "" then none
  else
    match parsed with
    | none => none
    | some s => if 0 < s then some (meanAreaPx * s ^ 2) else none

/-- Claim C7: With a positive pixel-to-length scale `s` supplied, the
physical mean area equals `meanAreaPx * s^2`; for empty, unparseable or
non-positive input the physical metric is absent and the result falls back
to pixel units — the conversion is a total function, so no exception
propagates to the caller. -/
theorem meanAreaUm2_spec (text : String) (parsed : Option ℚ) (px : ℚ) :
    (∀ s : ℚ, parsed = some s → 0 < s → text ≠ "" →
      meanAreaUm2 text parsed px = some (px * s ^ 2)) ∧
    (parsed = none → meanAreaUm2 text parsed px = none) ∧
    (∀ s : ℚ, parsed = some s → s ≤ 0 → meanAreaUm2 text parsed px = none) ∧
    (text = "" → meanAreaUm2 text parsed px = none) := by
  refine ⟨?_, ?_, ?_, ?_⟩
  · intro s hs hpos ht
    simp [meanAreaUm2, ht, hs, hpos]
  · intro hp
    by_cases ht : text = "" <;> simp [meanAreaUm2, ht, hp]
  · intro s hs hle
    by_cases ht : text = "" <;> simp [meanAreaUm2, ht, hs, not_lt.mpr hle]
  · intro ht
    simp [meanAreaUm2, ht]

/-- Claim C7 witness: Scale text `"0.5"` parsing to `1/2` with
`meanAreaPx = 8` yields `2`; unparseable text yields no physical metric. -/
theorem meanAreaUm2_spec_witness :
    meanAreaUm2 "0.5" (some (1/2)) 8 = some 2 ∧
    meanAreaUm2 "abc" none 8 = none := by
  constructor
  · have h := (meanAreaUm2_spec "0.5" (some (1/2)) 8).1 (1/2) rfl
      (by norm_num) (by decide)
    rw [h]
    norm_num
  · exact (meanAreaUm2_spec "abc" none 8).2.1 rfl

/-! ## Mask persistence (`run`, worker.py 82-84) -/

/-- Model of `mask.astype(np.uint16)`: every label value is reduced modulo `2^16`
before `io.imsave` writes the mask file. -/
def savedMask (mask : List ℕ) : List ℕ :=
  mask.map (fun v => v % 65536)

/-- Claim C10: The persisted label mask is the source mask with every label
reduced modulo `2^16`; when all labels are at most `65535` the saved mask
holds the raw label values exactly. -/
theorem savedMask_mod (mask : List ℕ) :
    savedMask mask = mask.map (fun v => v % 2 ^ 16) ∧
    ((∀ v ∈ mask, v ≤ 65535) → savedMask mask = mask) := by
  constructor
  · norm_num [savedMask]
  · intro h
    unfold savedMask
    have heq : mask.map (fun v => v % 65536) = mask.map (fun v => v) :=
      List.map_congr_left
        (fun v hv => Nat.mod_eq_of_lt (by have := h v hv; omega))
    rw [heq]
    exact List.map_id' mask

/-- Claim C10 witness: A mask whose labels fit in 16 bits is saved exactly. -/
theorem savedMask_mod_witness :
    savedMask [0, 65535, 3] = [0, 65535, 3] :=
  (savedMask_mod [0, 65535, 3]).2 (by decide)

end CellCount
